import Mathlib

/-!
Verification of the NthOrderMarket-v2 core against its specification.

This file shallowly embeds the relevant parts of the repository:

* `src/db_sync.py` and
  `src/prediction-mcp-server/src/prediction_mcp_server/db_sync_service.py`:
  the `ReadTracker` context manager and the `sync_databases` pass;
* `src/intelligent_gemini_bot.py` (and its near-duplicate MCP-server copy):
  `_detect_metric_field`, `_is_simple_metric_query`, the strategy override in
  `process_query`, the SQL-safety rewriting phase of `execute_sql_query`,
  the per-triple parser of `process_single_batch`, `_keyword_sql_fallback`
  and the merge/fallback/sort pipeline of `batch_process_events`.

Python strings are modelled as `String`/`List Char` (the code paths involved
are ASCII); machine integers as `Nat`/`Int`; fallible external calls as
`Except`/parameters describing the outcome of the call; the byte content of
database files as `List Nat`.
-/

namespace NthOrderMarket

/-! ## String and character utilities mirroring the Python primitives used -/

/-- Whitespace recognised by Python's `str.strip()` (ASCII subset). -/
def isSpaceChar (c : Char) : Bool :=
  c = ' ' || c = '\t' || c = '\n' || c = '\r' || c = '\x0b' || c = '\x0c'

/-- Python `str.lower()` on a character list (ASCII). -/
def lowerL (l : List Char) : List Char := l.map Char.toLower

/-- Python `str.upper()` on a character list (ASCII). -/
def upperL (l : List Char) : List Char := l.map Char.toUpper

/-- Python `str.strip()`: drop leading and trailing whitespace. -/
def stripL (l : List Char) : List Char :=
  ((l.dropWhile isSpaceChar).reverse.dropWhile isSpaceChar).reverse

/-- Python `str.rstrip(';')`: drop all trailing semicolons. -/
def dropTrailingSemis (l : List Char) : List Char :=
  (l.reverse.dropWhile (· = ';')).reverse

/-- Python `haystack.find(needle)` = index of the first occurrence. -/
def findSubIdx (sub : List Char) : List Char → Option ℕ
  | [] => if sub.isEmpty then some 0 else none
  | c :: t =>
    if sub.isPrefixOf (c :: t) then some 0
    else (findSubIdx sub t).map (· + 1)

/-- Python `needle in haystack` (substring containment), as a `Bool`. -/
def containsL (hay sub : List Char) : Bool := decide (sub <:+: hay)

/-- Substring containment on `String`s, mirroring Python `in`. -/
def containsS (hay sub : String) : Bool := containsL hay.data sub.data

/-- Python `str.lower()` on a `String`. -/
def lowerS (s : String) : String := String.mk (lowerL s.data)

/-- Split off everything before the first occurrence of `sep` (if any). -/
def breakAt (sep : Char) : List Char → Option (List Char × List Char)
  | [] => none
  | c :: t =>
    if c = sep then some ([], t)
    else (breakAt sep t).map (fun p => (c :: p.1, p.2))

/-- Python `s.split(sep, n)`: split on `sep` at most `n` times. -/
def splitMax (sep : Char) : ℕ → List Char → List (List Char)
  | 0, l => [l]
  | n + 1, l =>
    match breakAt sep l with
    | none => [l]
    | some (a, b) => a :: splitMax sep n b

/-- Python `s.split(sep)` (unbounded), via `foldr`. -/
def splitAll (sep : Char) (l : List Char) : List (List Char) :=
  l.foldr
    (fun c acc =>
      if c = sep then [] :: acc
      else
        match acc with
        | h :: t => (c :: h) :: t
        | [] => [[c]])
    [[]]

/-- Digit-string to number; `none` when empty or a non-digit occurs. -/
def digitsToNat : List Char → Option ℕ
  | [] => none
  | l =>
    if l.all Char.isDigit then
      some (l.foldl (fun n c => 10 * n + (c.toNat - '0'.toNat)) 0)
    else none

/-- Python `int(s)` on a stripped string: optional sign then digits
(`none` models the `ValueError`; underscore-grouped literals are not used by
the completion outputs this parser receives and are not modelled). -/
def pyInt? (l : List Char) : Option ℤ :=
  match stripL l with
  | '+' :: rest => (digitsToNat rest).map Int.ofNat
  | '-' :: rest => (digitsToNat rest).map (fun n => -(n : ℤ))
  | rest => (digitsToNat rest).map Int.ofNat

/-! ## ReadTracker (`db_sync.py` lines 25-42, `db_sync_service.py` lines 22-39)

The context manager increments the module-level `active_reads` under
`read_lock` on `__enter__` and decrements it on `__exit__`; Python runs
`__exit__` also when the bracketed body raises.  Each locked update is
atomic, so a concurrent history of the counter is a sequence of unit
increments/decrements; nesting and sequencing of `with ReadTracker()`
blocks generate exactly the `Balanced` traces below. -/

/-- `ReadTracker.__enter__`: `active_reads += 1` under the lock. -/
def readTrackerEnter (n : ℤ) : ℤ := n + 1

/-- `ReadTracker.__exit__`: `active_reads -= 1` under the lock; Python
invokes this on normal and on exceptional exit of the `with` body. -/
def readTrackerExit (n : ℤ) : ℤ := n - 1

/-- One atomic counter operation. -/
inductive ReadOp where
  | enterOp : ReadOp
  | exitOp : ReadOp
deriving DecidableEq

/-- Apply one operation to the shared counter. -/
def applyReadOp (n : ℤ) : ReadOp → ℤ
  | .enterOp => readTrackerEnter n
  | .exitOp => readTrackerExit n

/-- Run a trace of counter operations from an initial counter value. -/
def runReadOps (l : List ReadOp) (n : ℤ) : ℤ := l.foldl applyReadOp n

/-- Traces generated by well-bracketed `with ReadTracker()` sections:
empty, a bracketed body around a trace (the body may raise - `__exit__`
still runs), and sequential composition. -/
inductive Balanced : List ReadOp → Prop
  | nil : Balanced []
  | nest {w : List ReadOp} : Balanced w →
      Balanced (ReadOp.enterOp :: w ++ [ReadOp.exitOp])
  | seq {w₁ w₂ : List ReadOp} : Balanced w₁ → Balanced w₂ →
      Balanced (w₁ ++ w₂)

/-! ## Database synchronization (`db_sync.py` lines 44-104 and
`db_sync_service.py` lines 56-101)

The file system state carries the byte content of the writer store, the
read replica and the `.backup` file (`none` = the path does not exist).
One call to `get_active_reads()` is one observation `obs i`; the 10 s /
0.1 s wait loop performs at most 100 polls before the final check.  The
outcome of `shutil.copy2(WRITE_DB, READ_DB)` is a parameter: it either
succeeds or raises leaving some partial content at the destination; the
post-copy `SELECT COUNT(*)` verification either succeeds or raises. -/

/-- On-disk state of the three files involved in a sync pass. -/
structure FileSys where
  writeDb : Option (List ℕ)
  readDb : Option (List ℕ)
  backup : Option (List ℕ)
deriving DecidableEq

/-- Outcome of the write-to-read `shutil.copy2`: success, or an exception
leaving `leftBehind` as the content of the read replica. -/
inductive CopyOutcome where
  | ok : CopyOutcome
  | raises : Option (List ℕ) → CopyOutcome
deriving DecidableEq

/-- The wait loop `while get_active_reads() > 0 and wait_time < max_wait`:
returns the index of the observation at which the loop exits (either a zero
observation or the bounded fuel running out). -/
def drainPolls (obs : ℕ → ℕ) : ℕ → ℕ → ℕ
  | 0, i => i
  | f + 1, i => if 0 < obs i then drainPolls obs f (i + 1) else i

/-- Restore step of `db_sync.sync_databases` (lines 98-102): copy the
backup over the read replica when the backup file exists, return `False`. -/
def restoreStep (fs : FileSys) : Bool × FileSys :=
  match fs.backup with
  | some b => (false, { fs with readDb := some b })
  | none => (false, fs)

/-- The `try` block of `db_sync.sync_databases` (lines 70-104): back up the
read replica if it exists, copy write over read, verify; on any exception
restore the backup and return `False`; on success delete the backup and
return `True`. -/
def rootTryBlock (co : CopyOutcome) (verifyOk : Bool) (fs : FileSys) :
    Bool × FileSys :=
  let fs₁ :=
    match fs.readDb with
    | some r => { fs with backup := some r }
    | none => fs
  match co with
  | .raises leftBehind => restoreStep { fs₁ with readDb := leftBehind }
  | .ok =>
    let fs₂ := { fs₁ with readDb := fs₁.writeDb }
    if verifyOk then (true, { fs₂ with backup := none })
    else restoreStep fs₂

/-- Wait-then-try phase shared by the root sync after write-DB init. -/
def syncAfterInit (obs : ℕ → ℕ) (co : CopyOutcome) (verifyOk : Bool)
    (fs : FileSys) : Bool × FileSys :=
  if 0 < obs (drainPolls obs 100 0) then (false, fs)
  else rootTryBlock co verifyOk fs

/-- `db_sync.sync_databases` (lines 44-104).  `initOut` is the outcome of
`Database(db_path=WRITE_DB)` when the write DB is missing (`none` = the
constructor raised, in which case the function prints and returns `False`). -/
def sync_databases (obs : ℕ → ℕ) (initOut : Option (List ℕ))
    (co : CopyOutcome) (verifyOk : Bool) (fs : FileSys) : Bool × FileSys :=
  match fs.writeDb with
  | some _ => syncAfterInit obs co verifyOk fs
  | none =>
    match initOut with
    | none => (false, fs)
    | some w => syncAfterInit obs co verifyOk { fs with writeDb := some w }

/-- The `try` block of `db_sync_service.sync_databases` (lines 80-101): same
backup/copy/verify sequence, but on exception it only prints and returns
`False` - no restore, and the backup file is left in place. -/
def mcpTryBlock (co : CopyOutcome) (verifyOk : Bool) (fs : FileSys) :
    Bool × FileSys :=
  let fs₁ :=
    match fs.readDb with
    | some r => { fs with backup := some r }
    | none => fs
  match co with
  | .raises leftBehind => (false, { fs₁ with readDb := leftBehind })
  | .ok =>
    let fs₂ := { fs₁ with readDb := fs₁.writeDb }
    if verifyOk then (true, { fs₂ with backup := none })
    else (false, fs₂)

/-- `db_sync_service.sync_databases` (lines 56-101).  A missing write DB is
created empty via `touch()`; when `waitForReads` is set the bounded wait
loop runs before the copy. -/
def sync_databases_mcp (obs : ℕ → ℕ) (waitForReads : Bool)
    (co : CopyOutcome) (verifyOk : Bool) (fs : FileSys) : Bool × FileSys :=
  let fs' :=
    match fs.writeDb with
    | none => { fs with writeDb := some [] }
    | some _ => fs
  if waitForReads then
    if 0 < obs (drainPolls obs 100 0) then (false, fs')
    else mcpTryBlock co verifyOk fs'
  else mcpTryBlock co verifyOk fs'

/-! ## Bot data model (`intelligent_gemini_bot.py`)

An `Event` row carries the fields the modelled code paths read: `str(e.id)`
is modelled as the string `id` directly.  A `ScoredEvent` is an event with
the `relevance_score` / `relevance_reasoning` attributes the scorer sets. -/

structure Event where
  id : String
  title : String
  description : String
  domain : String
  volume : ℤ
  isActive : Bool
deriving DecidableEq

structure ScoredEvent where
  event : Event
  relevance_score : ℤ
  relevance_reasoning : String
deriving DecidableEq

/-! ## Query heuristics (`intelligent_gemini_bot.py` lines 129-162) -/

/-- `_detect_metric_field` (lines 129-139). -/
def detect_metric_field (userQuery : String) : String :=
  if userQuery = "" then "volume"
  else
    let lowered := lowerS userQuery
    if containsS lowered "liquidity" then "liquidity"
    else if containsS lowered "open interest" || containsS lowered "open-interest"
        || containsS lowered "oi" then "open_interest"
    else "volume"

/-- `_is_simple_metric_query` (lines 141-162). -/
def is_simple_metric_query (userQuery : String) : Bool :=
  if userQuery = "" then false
  else
    let q := lowerS userQuery
    let rankTokens := ["top", "highest", "biggest", "largest", "most", "first",
      "best", "top 10", "top10", "top-five", "top5", "top 5", "top 20", "top 50"]
    let rankHit := rankTokens.any (fun t => containsS q t)
    let metricTokens := ["volume", "liquidity", "open interest", "oi",
      "trade volume", "volume traded", "trading volume"]
    let metricHit := metricTokens.any (fun t => containsS q t)
    let byConstruction := containsS q "by" &&
      ["volume", "liquidity", "open interest"].any (fun t => containsS q t)
    let simpleMarketQueries :=
      (["markets", "events", "prediction markets"].any (fun t => containsS q t)) &&
      !(["about", "related to", "involving", "for", "on"].any (fun t => containsS q t))
    (rankHit && metricHit) || byConstruction || (simpleMarketQueries && metricHit)

/-- The strategy override in `process_query` (lines 1576-1581): when the
normalized analyzer strategy is not `comparison` and the simple-metric
heuristic fires, the strategy is forced to `sql`. -/
def override_strategy (strategy : String) (userQuery : String) : String :=
  if !(lowerS strategy == "comparison") && is_simple_metric_query userQuery then "sql"
  else strategy

/-! ## SQL safety rewriting (`execute_sql_query`, lines 744-789)

The rewrite phase is purely textual: reject non-SELECT text, remove
`LIMIT <number>` clauses, inject `is_active=1`, inject `ORDER BY volume
DESC`.  The subsequent execution against SQLite is outside this model; the
rewriting itself is the contract the spec describes. -/

/-- The guard `sql_query.strip().upper().startswith('SELECT')` (line 748). -/
def startsWithSelect (sql : String) : Bool :=
  "SELECT".data.isPrefixOf (upperL (stripL sql.data))

/-- Error text returned for non-SELECT input (line 749). -/
def selectOnlyError : String := "Error: Only SELECT queries are allowed for safety."

/-- Match `LIMIT\s+\d+\s*;?` (case-insensitive) at the head of the list;
on success return the remainder after the matched span. -/
def matchLimitNum (l : List Char) : Option (List Char) :=
  if upperL (l.take 5) = "LIMIT".data then
    let r := l.drop 5
    let ws := r.takeWhile isSpaceChar
    let r₁ := r.dropWhile isSpaceChar
    if ws.isEmpty then none
    else
      let ds := r₁.takeWhile Char.isDigit
      let r₂ := r₁.dropWhile Char.isDigit
      if ds.isEmpty then none
      else
        match r₂.dropWhile isSpaceChar with
        | ';' :: rest => some rest
        | other => some other
  else none

/-- Fuel-bounded scan removing every `LIMIT\s+\d+\s*;?` occurrence; this is
the net effect of lines 752-760 (find the first `LIMIT`, then
`re.sub(r'LIMIT\s+\d+\s*;?', '', rest, flags=IGNORECASE)` on the rest). -/
def removeLimitAux : ℕ → List Char → List Char
  | 0, l => l
  | _ + 1, [] => []
  | f + 1, c :: t =>
    match matchLimitNum (c :: t) with
    | some rest => removeLimitAux f rest
    | none => c :: removeLimitAux f t

/-- Remove all numeric LIMIT clauses from the query text. -/
def removeLimitClauses (l : List Char) : List Char := removeLimitAux l.length l

/-- Condition of line 763: the user did not mention inactive records and the
query text has no activity predicate yet. -/
def needsActiveFilter (sql : List Char) (userQuery : String) : Bool :=
  !containsL (lowerL userQuery.data) "inactive".data &&
  !containsL (lowerL sql) "is_active".data

/-- Lines 762-780: inject `is_active=1` into the WHERE clause (or create
one before `ORDER BY`/`LIMIT`, or append one). -/
def inject_active (sql : List Char) (userQuery : String) : List Char :=
  if needsActiveFilter sql userQuery then
    match findSubIdx "WHERE".data (upperL sql) with
    | some p => sql.take (p + 5) ++ " is_active=1 AND".data ++ sql.drop (p + 5)
    | none =>
      match findSubIdx "ORDER BY".data (upperL sql) with
      | some p => sql.take p ++ " WHERE is_active=1 ".data ++ sql.drop p
      | none =>
        match findSubIdx "LIMIT".data (upperL sql) with
        | some p => sql.take p ++ " WHERE is_active=1 ".data ++ sql.drop p
        | none => dropTrailingSemis sql ++ " WHERE is_active=1".data
  else sql

/-- Lines 782-789: when no `ORDER BY` is present, inject `ORDER BY volume
DESC` (before a remaining `LIMIT` token, otherwise appended). -/
def inject_order (sql : List Char) : List Char :=
  if containsL (upperL sql) "ORDER BY".data then sql
  else
    match findSubIdx "LIMIT".data (upperL sql) with
    | some p => sql.take p ++ " ORDER BY volume DESC ".data ++ sql.drop p
    | none => dropTrailingSemis sql ++ " ORDER BY volume DESC".data

/-- The full rewrite phase of `execute_sql_query` (lines 744-789): the
safety error is modelled as `Except.error`; on success the rewritten query
text that will be executed is returned. -/
def execute_sql_rewrite (sql userQuery : String) : Except String String :=
  if startsWithSelect sql then
    .ok (String.mk (inject_order (inject_active (removeLimitClauses sql.data) userQuery)))
  else .error selectOnlyError

/-! ## Batch response parsing (`process_single_batch`, lines 1369-1420; the
MCP-server copy is character-identical at lines 816-867) -/

/-- Rate-limit signature check (line 1417): `"quota"`/`"rate"` in the
lowercased message, or `"429"` anywhere. -/
def isRateLimitError (msg : String) : Bool :=
  containsL (lowerL msg.data) "quota".data ||
  containsL (lowerL msg.data) "rate".data ||
  containsL msg.data "429".data

/-- Parse one `id:score:reasoning` triple, already split on `':'` at most
twice (lines 1389-1410).  A missing score sub-field (no colon at all)
defaults to score 75; a present but non-integer score raises `ValueError`,
which the `except` clause turns into discarding the whole triple (`none`).
Ids not present in the batch are discarded. -/
def tripleReasoning : List (List Char) → String
  | [] => "relevant match"
  | r :: _ => String.mk (stripL r)

def parseTripleParts (batch : List Event) : List (List Char) → Option (String × ScoredEvent)
  | [p0] =>
    match batch.find? (fun e => e.id == String.mk (stripL p0)) with
    | some ev => some (String.mk (stripL p0), ⟨ev, 75, "relevant match"⟩)
    | none => none
  | p0 :: p1 :: rest =>
    match pyInt? p1 with
    | none => none
    | some score =>
      match batch.find? (fun e => e.id == String.mk (stripL p0)) with
      | some ev => some (String.mk (stripL p0), ⟨ev, score, tripleReasoning rest⟩)
      | none => none
  | [] => none

/-- `triple.split(':', 2)` then the per-triple parse. -/
def parseTriple (batch : List Event) (t : List Char) : Option (String × ScoredEvent) :=
  parseTripleParts batch (splitMax ':' 2 t)

/-- Strip the `IDS WITH SCORES:` / `IDS:` prefixes (lines 1378-1384). -/
def stripIdsPrefix (resp : List Char) : List Char :=
  let up := upperL resp
  match findSubIdx "IDS WITH SCORES:".data up with
  | some i => stripL (resp.drop (i + 16))
  | none =>
    match findSubIdx "IDS:".data up with
    | some i => stripL (resp.drop (i + 4))
    | none => resp

/-- Parse a whole batch completion response (lines 1375-1410): the literal
`NONE` sentinel yields no matches; otherwise split on `'|'`, strip, drop
empties, and parse each triple. -/
def parseBatchResponse (batch : List Event) (resp : String) : List (String × ScoredEvent) :=
  if upperL resp.data = "NONE".data then []
  else
    let r := stripIdsPrefix resp.data
    let triples := ((splitAll '|' r).map stripL).filter (fun t => !t.isEmpty)
    triples.filterMap (parseTriple batch)

/-- `process_single_batch` (lines 1281-1420): `call` is the outcome of the
`_call_gemini` completion call.  On success: the parsed matches and no
error.  On exception: no matches plus the error message and its rate-limit
flag (lines 1411-1418). -/
def process_single_batch (batch : List Event) (call : Except String String) :
    List (String × ScoredEvent) × Option (String × Bool) :=
  match call with
  | .ok resp => (parseBatchResponse batch resp, none)
  | .error msg => ([], some (msg, isRateLimitError msg))

/-! ## Keyword LIKE fallback (`_keyword_sql_fallback`, lines 1160-1200)

`terms` models the concatenated keyword and phrase lists; `candidates`
models the rows of the events table.  The SQL `ILIKE '%term%'` filters are
modelled as case-insensitive substring tests (SQL wildcard characters
inside a term are not modelled), ordering by volume descending, then the
Python loop recomputes per-term hits and attaches the synthetic score
`min(72 + min(hits, 5) * 4, 95)`. -/

/-- Stable descending insertion by volume, modelling `ORDER BY volume DESC`. -/
def insertVolDesc (a : Event) : List Event → List Event
  | [] => [a]
  | b :: t => if b.volume ≤ a.volume then a :: b :: t else b :: insertVolDesc a t

def sortByVolumeDesc (l : List Event) : List Event := l.foldr insertVolDesc []

/-- Stable ascending insertion for strings, modelling Python `sorted`. -/
def insertStrAsc (a : String) : List String → List String
  | [] => [a]
  | b :: t => if a ≤ b then a :: b :: t else b :: insertStrAsc a t

def sortStrings (l : List String) : List String := l.foldr insertStrAsc []

/-- Lowercased nonempty search terms (`like_terms` of lines 1165-1167). -/
def likeTermsOf (terms : List String) : List String :=
  (terms.map lowerS).filter (fun t => t ≠ "")

/-- The row filter of the SQL query (title/description ILIKE any term). -/
def rowMatchesTerm (e : Event) (t : String) : Bool :=
  containsL (lowerL e.title.data) t.data ||
  containsL (lowerL e.description.data) t.data

/-- The haystack `f"{title or ''} {description or ''}".lower()` (line 1187). -/
def fallbackHay (e : Event) : List Char :=
  lowerL ((e.title ++ " " ++ e.description).data)

/-- Terms found in the haystack (`matched_terms`, lines 1188-1192). -/
def fallbackMatched (likeTerms : List String) (e : Event) : List String :=
  likeTerms.filter (fun t => containsL (fallbackHay e) t.data)

/-- `min(72 + min(match_hits, 5) * 4, 95)` (lines 1193-1194). -/
def fallbackScore (likeTerms : List String) (e : Event) : ℕ :=
  min (72 + 4 * min (fallbackMatched likeTerms e).length 5) 95

/-- The reasoning string of lines 1195-1198. -/
def fallbackReasoning (likeTerms : List String) (e : Event) : String :=
  if (fallbackMatched likeTerms e).isEmpty then "Direct keyword match"
  else "Direct keyword match on " ++
    String.intercalate ", " (sortStrings (fallbackMatched likeTerms e).eraseDups)

def keyword_sql_fallback (terms : List String) (candidates : List Event)
    (limit : ℕ) : List ScoredEvent :=
  if (likeTermsOf terms).isEmpty then []
  else
    ((sortByVolumeDesc ((candidates.filter (fun e => e.isActive)).filter
        (fun e => (likeTermsOf terms).any (rowMatchesTerm e)))).take limit).map
      (fun e =>
        ⟨e, ((fallbackScore (likeTermsOf terms) e : ℕ) : ℤ),
         fallbackReasoning (likeTermsOf terms) e⟩)

/-! ## Batch merge, dedup, fallback and ranking (`batch_process_events`,
lines 1422-1470) -/

/-- The dedup loop of lines 1436-1440 (also reused verbatim for the
fallback augmentation of lines 1447-1450): append each match unless its id
was already accepted. -/
def addMatches (st : List ScoredEvent × List String)
    (ms : List (String × ScoredEvent)) : List ScoredEvent × List String :=
  ms.foldl
    (fun st p => if p.1 ∈ st.2 then st else (st.1 ++ [p.2], p.1 :: st.2))
    st

/-- The `as_completed` collection loop (lines 1427-1440): a rate-limited
batch error aborts the whole pass with that message (`Except.error`);
other batch errors are collected; matches are deduplicated as they arrive.
The state is `(all_matches, seen_event_ids, batch_errors)`. -/
def mergeLoop :
    List (List (String × ScoredEvent) × Option (String × Bool)) →
    List ScoredEvent × List String × List String →
    Except String (List ScoredEvent × List String × List String)
  | [], st => .ok st
  | (ms, errOpt) :: rest, (acc, seen, errs) =>
    match errOpt with
    | some (msg, true) => .error msg
    | some (msg, false) =>
      let st := addMatches (acc, seen) ms
      mergeLoop rest (st.1, st.2, errs ++ [msg])
    | none =>
      let st := addMatches (acc, seen) ms
      mergeLoop rest (st.1, st.2, errs)

/-- Python `user_limit or 5` (treats `None` and `0` as absent). -/
def pyOrNat (x : Option ℕ) (d : ℕ) : ℕ :=
  match x with
  | none => d
  | some u => if u = 0 then d else u

/-- Sort key comparison: `b`'s `(relevance_score, volume)` is at most `a`'s
in lexicographic order. -/
def scoreKeyLe (b a : ScoredEvent) : Bool :=
  decide (b.relevance_score < a.relevance_score ∨
    (b.relevance_score = a.relevance_score ∧ b.event.volume ≤ a.event.volume))

/-- Stable descending insertion by `(relevance_score, volume)`, modelling
`all_matches.sort(key=..., reverse=True)` of lines 1455-1458. -/
def insertScoreDesc (a : ScoredEvent) : List ScoredEvent → List ScoredEvent
  | [] => [a]
  | b :: t => if scoreKeyLe b a then a :: b :: t else b :: insertScoreDesc a t

def sortMatches (l : List ScoredEvent) : List ScoredEvent := l.foldr insertScoreDesc []

/-- The value `batch_process_events` returns, by shape: the rate-limit
abort message (lines 1431-1433), the batched-errors message (lines
1463-1466), the no-results message (line 1468), or the formatted answer
over the ranked accepted matches (line 1470). -/
inductive BatchReply where
  | rateLimited : String → BatchReply
  | errorSummary : List String → BatchReply
  | noMatches : String → BatchReply
  | answer : List ScoredEvent → BatchReply
deriving DecidableEq

/-- Pairs handed to the fallback dedup loop: key `str(event.id)`. -/
def fallbackPairs (terms : List String) (candidates : List Event)
    (minExpected : ℕ) : List (String × ScoredEvent) :=
  (keyword_sql_fallback terms candidates (max (minExpected * 2) 15)).map
    (fun se => (se.event.id, se))

/-- Final branch structure of lines 1460-1470. -/
def bpeFinal (userQuery : String) (errs : List String) (fbUsed : Bool)
    (sorted : List ScoredEvent) : BatchReply × Bool :=
  if sorted.isEmpty then
    if errs.isEmpty then (.noMatches userQuery, fbUsed)
    else (.errorSummary errs, fbUsed)
  else (.answer sorted, fbUsed)

/-- Post-merge phase (lines 1442-1470): fallback escalation when fewer than
`max(5, user_limit or 5)` matches were accepted, then the stable
score/volume sort, then the final reply.  The second component records
whether the keyword fallback was invoked. -/
def bpePost (userQuery : String) (userLimit : Option ℕ) (terms : List String)
    (candidates : List Event) (acc : List ScoredEvent) (seen : List String)
    (errs : List String) : BatchReply × Bool :=
  if acc.length < max 5 (pyOrNat userLimit 5) then
    bpeFinal userQuery errs true
      (sortMatches
        (addMatches (acc, seen)
          (fallbackPairs terms candidates (max 5 (pyOrNat userLimit 5)))).1)
  else bpeFinal userQuery errs false (sortMatches acc)

/-- `batch_process_events` (lines 1422-1470), starting from the prepared
batches: `inputs` pairs each batch with the outcome of its completion call,
listed in `as_completed` (arbitrary) order. -/
def batch_process_events (userQuery : String)
    (inputs : List (List Event × Except String String)) (userLimit : Option ℕ)
    (terms : List String) (candidates : List Event) : BatchReply × Bool :=
  match mergeLoop (inputs.map (fun p => process_single_batch p.1 p.2)) ([], [], []) with
  | .error msg => (.rateLimited msg, false)
  | .ok (acc, seen, errs) => bpePost userQuery userLimit terms candidates acc seen errs

/-- Invariant of the dedup state `(all_matches, seen_event_ids)`: accepted
ids are pairwise distinct and every accepted id has been recorded. -/
def GoodState (st : List ScoredEvent × List String) : Prop :=
  (st.1.map (fun se => se.event.id)).Nodup ∧
  ∀ se ∈ st.1, se.event.id ∈ st.2

/-! ## Sample rows used by concrete witnesses and counterexamples -/

def sampleE1 : Event := ⟨"1", "t1", "", "", 50, true⟩

def sampleE2 : Event := ⟨"2", "t2", "", "", 40, true⟩

def sampleE3 : Event := ⟨"3", "t3", "", "", 30, true⟩

def sampleE4 : Event := ⟨"4", "t4", "", "", 20, true⟩

def sampleE5 : Event := ⟨"5", "t5", "", "", 10, true⟩

def sampleE123 : Event := ⟨"123", "t", "", "", 0, true⟩

/-! ## Supporting lemmas for the ReadTracker trace semantics -/

theorem runReadOps_append (l₁ l₂ : List ReadOp) (n : ℤ) :
    runReadOps (l₁ ++ l₂) n = runReadOps l₂ (runReadOps l₁ n) :=
  List.foldl_append ..

theorem runReadOps_balanced {w : List ReadOp} (h : Balanced w) (n : ℤ) :
    runReadOps w n = n := by
  induction h generalizing n with
  | nil => rfl
  | nest _ ih =>
    show runReadOps ([ReadOp.enterOp] ++ (_ ++ [ReadOp.exitOp])) n = n
    rw [runReadOps_append, runReadOps_append, ih]
    show n + 1 - 1 = n
    omega
  | seq _ _ ih₁ ih₂ =>
    rw [runReadOps_append, ih₁, ih₂]

theorem runReadOps_prefix_ge {w : List ReadOp} (h : Balanced w) :
    ∀ p q : List ReadOp, w = p ++ q → ∀ n : ℤ, n ≤ runReadOps p n := by
  induction h with
  | nil =>
    intro p q hpq n
    rcases List.append_eq_nil.mp hpq.symm with ⟨hp, _⟩
    subst hp
    exact le_refl n
  | @nest w hw ih =>
    intro p q hpq n
    cases p with
    | nil => exact le_refl n
    | cons x p' =>
      rw [List.cons_append] at hpq
      injection hpq with hx hsplit
      subst hx
      have hrun : runReadOps (ReadOp.enterOp :: p') n = runReadOps p' (n + 1) := rfl
      have hbal := runReadOps_balanced hw (n + 1)
      rcases List.append_eq_append_iff.mp hsplit with ⟨a, ha, hq⟩ | ⟨c, hc, _⟩
      · cases a with
        | nil =>
          subst ha
          rw [hrun, runReadOps_append, hbal]
          show n ≤ n + 1
          omega
        | cons e rest =>
          have he : e = ReadOp.exitOp ∧ rest = [] := by
            rw [List.cons_append] at hq
            injection hq with he hrest
            exact ⟨he.symm, (List.append_eq_nil.mp hrest.symm).1⟩
          rcases he with ⟨he, hrest⟩
          subst he; subst hrest
          subst ha
          rw [hrun, runReadOps_append, hbal]
          show n ≤ n + 1 - 1
          omega
      · have := ih p' c hc (n + 1)
        rw [hrun]
        omega
  | @seq w₁ w₂ h₁ _ ih₁ ih₂ =>
    intro p q hpq n
    rcases List.append_eq_append_iff.mp hpq with ⟨a, ha, hw₂⟩ | ⟨c, hc, _⟩
    · subst ha
      rw [runReadOps_append, runReadOps_balanced h₁]
      exact ih₂ a q hw₂ n
    · exact ih₁ p c hc n

/-! ## Claim theorems -/

/-- C10: entering a `ReadTracker` section increments the shared counter by
exactly 1 and exiting decrements it by exactly 1 (Python runs `__exit__`
also when the body raises, so every generated trace is `Balanced`); hence
any completed well-bracketed trace restores the counter, and along a
balanced trace started from 0 every observed value of `get_active_reads`
is nonnegative. -/
theorem C10_read_tracker_counter (w : List ReadOp) (hw : Balanced w) :
    (∀ c : ℤ, readTrackerEnter c = c + 1) ∧
    (∀ c : ℤ, readTrackerExit c = c - 1) ∧
    (∀ c : ℤ, runReadOps w c = c) ∧
    (∀ p : List ReadOp, p <+: w → 0 ≤ runReadOps p 0) := by
  refine ⟨fun _ => rfl, fun _ => rfl, runReadOps_balanced hw, fun p hp => ?_⟩
  rcases hp with ⟨t, ht⟩
  exact runReadOps_prefix_ge hw p t ht.symm 0

/-- Witness for C10 at the concrete trace of one bracketed read. -/
theorem C10_read_tracker_counter_witness :
    Balanced [ReadOp.enterOp, ReadOp.exitOp] ∧
    runReadOps [ReadOp.enterOp, ReadOp.exitOp] 7 = 7 ∧
    0 ≤ runReadOps [ReadOp.enterOp] 0 := by
  have hb : Balanced [ReadOp.enterOp, ReadOp.exitOp] := by
    have h := Balanced.nest Balanced.nil
    simpa using h
  exact ⟨hb, (C10_read_tracker_counter _ hb).2.2.1 7,
    (C10_read_tracker_counter _ hb).2.2.2 [ReadOp.enterOp] ⟨[ReadOp.exitOp], rfl⟩⟩

/-- C1: if the active-reader count is nonzero at every observation of the
bounded wait window, both `sync_databases` implementations return `False`
and leave the read snapshot byte-identical (no copy is performed). -/
theorem C1_sync_skips_when_readers_active (obs : ℕ → ℕ)
    (initOut : Option (List ℕ)) (co : CopyOutcome) (verifyOk : Bool)
    (fs : FileSys) (h : ∀ i, 0 < obs i) :
    ((sync_databases obs initOut co verifyOk fs).1 = false ∧
     (sync_databases obs initOut co verifyOk fs).2.readDb = fs.readDb) ∧
    ((sync_databases_mcp obs true co verifyOk fs).1 = false ∧
     (sync_databases_mcp obs true co verifyOk fs).2.readDb = fs.readDb) := by
  have hskip : 0 < obs (drainPolls obs 100 0) := h _
  have hroot : ∀ g : FileSys, syncAfterInit obs co verifyOk g = (false, g) := by
    intro g
    unfold syncAfterInit
    rw [if_pos hskip]
  obtain ⟨w, rd, b⟩ := fs
  constructor
  · cases w with
    | some w' => simp [sync_databases, hroot]
    | none =>
      cases initOut with
      | none => simp [sync_databases]
      | some w' => simp [sync_databases, hroot]
  · cases w with
    | some w' => simp [sync_databases_mcp, hskip]
    | none => simp [sync_databases_mcp, hskip]

/-- Witness for C1 at a constant nonzero reader count. -/
theorem C1_sync_skips_when_readers_active_witness :
    (∀ i : ℕ, 0 < (fun _ : ℕ => 1) i) ∧
    (((sync_databases (fun _ => 1) none CopyOutcome.ok true
        ⟨some [1], some [2], none⟩).1 = false ∧
      (sync_databases (fun _ => 1) none CopyOutcome.ok true
        ⟨some [1], some [2], none⟩).2.readDb = some [2]) ∧
     ((sync_databases_mcp (fun _ => 1) true CopyOutcome.ok true
        ⟨some [1], some [2], none⟩).1 = false ∧
      (sync_databases_mcp (fun _ => 1) true CopyOutcome.ok true
        ⟨some [1], some [2], none⟩).2.readDb = some [2])) :=
  ⟨fun _ => Nat.one_pos,
   C1_sync_skips_when_readers_active _ _ _ _ _ (fun _ => Nat.one_pos)⟩

/-- C2 counterexample: in the MCP-server variant `db_sync_service.py`, a
copy that raises after the pre-copy backup was taken does NOT restore the
backup: starting from write content `[1]` and read content `[2]`, a failed
copy leaving partial content `[9]` returns `False` with the read snapshot
holding `[9]` - neither the completed new copy `[1]` nor the pre-copy
state `[2]`. -/
theorem C2_mcp_sync_no_restore_counterexample :
    sync_databases_mcp (fun _ => 0) true (CopyOutcome.raises (some [9])) true
        ⟨some [1], some [2], none⟩ =
      (false, ⟨some [1], some [9], some [2]⟩) ∧
    (some [9] : Option (List ℕ)) ≠ some [2] ∧
    (some [9] : Option (List ℕ)) ≠ some [1] := by
  refine ⟨by decide, by decide, by decide⟩

/-- C2 (amended): in the root implementation `db_sync.py`, whenever the
copy step raises after the pre-copy backup was taken (the read snapshot
existed, hence was backed up), `sync_databases` restores the backup before
returning `False`, so the read snapshot on return equals its pre-copy
state. -/
theorem C2_root_sync_restores_backup (obs : ℕ → ℕ)
    (initOut : Option (List ℕ)) (leftBehind : Option (List ℕ))
    (verifyOk : Bool) (fs : FileSys) (r : List ℕ)
    (hr : fs.readDb = some r) :
    (sync_databases obs initOut (CopyOutcome.raises leftBehind) verifyOk fs).1 = false ∧
    (sync_databases obs initOut (CopyOutcome.raises leftBehind) verifyOk fs).2.readDb = some r := by
  obtain ⟨w, rd, b⟩ := fs
  obtain rfl : rd = some r := hr
  have htry : rootTryBlock (CopyOutcome.raises leftBehind) verifyOk ⟨w, some r, b⟩ =
      (false, ⟨w, some r, some r⟩) := by
    simp [rootTryBlock, restoreStep]
  have hafter : ∀ w' : Option (List ℕ),
      (syncAfterInit obs (CopyOutcome.raises leftBehind) verifyOk ⟨w', some r, b⟩).1 = false ∧
      (syncAfterInit obs (CopyOutcome.raises leftBehind) verifyOk ⟨w', some r, b⟩).2.readDb = some r := by
    intro w'
    unfold syncAfterInit
    by_cases hskip : 0 < obs (drainPolls obs 100 0)
    · rw [if_pos hskip]
      exact ⟨rfl, rfl⟩
    · rw [if_neg hskip]
      have htry' : rootTryBlock (CopyOutcome.raises leftBehind) verifyOk ⟨w', some r, b⟩ =
          (false, ⟨w', some r, some r⟩) := by
        simp [rootTryBlock, restoreStep]
      rw [htry']
      exact ⟨rfl, rfl⟩
  cases w with
  | some w' => exact hafter (some w')
  | none =>
    cases initOut with
    | none => exact ⟨rfl, rfl⟩
    | some winit => exact hafter (some winit)

/-- Witness for C2 (amended) with a concrete failing copy. -/
theorem C2_root_sync_restores_backup_witness :
    ((⟨some [1], some [2], none⟩ : FileSys).readDb = some [2]) ∧
    (sync_databases (fun _ => 0) none (CopyOutcome.raises (some [9])) true
        ⟨some [1], some [2], none⟩).1 = false ∧
    (sync_databases (fun _ => 0) none (CopyOutcome.raises (some [9])) true
        ⟨some [1], some [2], none⟩).2.readDb = some [2] :=
  ⟨rfl, C2_root_sync_restores_backup _ _ _ _ _ _ rfl⟩

/-! ## Supporting lemmas for the batch pipeline -/

theorem addMatches_cons (st : List ScoredEvent × List String)
    (p : String × ScoredEvent) (rest : List (String × ScoredEvent)) :
    addMatches st (p :: rest) =
      addMatches (if p.1 ∈ st.2 then st else (st.1 ++ [p.2], p.1 :: st.2)) rest :=
  rfl

theorem addMatches_mem (st : List ScoredEvent × List String)
    (ms : List (String × ScoredEvent)) (se : ScoredEvent)
    (h : se ∈ (addMatches st ms).1) :
    se ∈ st.1 ∨ ∃ eid, (eid, se) ∈ ms := by
  induction ms generalizing st with
  | nil => exact .inl h
  | cons p rest ih =>
    rw [addMatches_cons] at h
    rcases ih _ h with h' | ⟨eid, hm⟩
    · by_cases hp : p.1 ∈ st.2
      · rw [if_pos hp] at h'
        exact .inl h'
      · rw [if_neg hp] at h'
        rcases List.mem_append.mp h' with h'' | h''
        · exact .inl h''
        · rcases List.mem_singleton.mp h'' with rfl
          exact .inr ⟨p.1, List.mem_cons_self p rest⟩
    · exact .inr ⟨eid, List.mem_cons_of_mem _ hm⟩

theorem addMatches_good (st : List ScoredEvent × List String)
    (ms : List (String × ScoredEvent)) (hg : GoodState st)
    (hk : ∀ p ∈ ms, (p.2 : ScoredEvent).event.id = p.1) :
    GoodState (addMatches st ms) := by
  induction ms generalizing st with
  | nil => exact hg
  | cons p rest ih =>
    rw [addMatches_cons]
    refine ih _ ?_ (fun q hq => hk q (List.mem_cons_of_mem _ hq))
    by_cases hp : p.1 ∈ st.2
    · rw [if_pos hp]
      exact hg
    · rw [if_neg hp]
      obtain ⟨hnd, hsub⟩ := hg
      constructor
      · show ((st.1 ++ [p.2]).map (fun se => se.event.id)).Nodup
        rw [List.map_append, List.nodup_append]
        refine ⟨hnd, by simp, ?_⟩
        intro a ha hb
        have hap : a = p.1 := by
          have : a = p.2.event.id := by simpa using hb
          rw [this, hk p (List.mem_cons_self p rest)]
        rcases List.mem_map.mp ha with ⟨se, hse, hise⟩
        exact hp (hap ▸ hise ▸ hsub se hse)
      · intro se hse
        rcases List.mem_append.mp hse with h | h
        · exact List.mem_cons_of_mem _ (hsub se h)
        · rcases List.mem_singleton.mp h with rfl
          rw [hk p (List.mem_cons_self p rest)]
          exact List.mem_cons_self _ _

theorem parseTripleParts_keyed (batch : List Event) (ps : List (List Char))
    (pr : String × ScoredEvent) (h : parseTripleParts batch ps = some pr) :
    pr.2.event.id = pr.1 := by
  cases ps with
  | nil => exact absurd h (by simp [parseTripleParts])
  | cons p0 tail =>
    cases tail with
    | nil =>
      simp only [parseTripleParts] at h
      cases hf : batch.find? (fun e => e.id == String.mk (stripL p0)) with
      | none => rw [hf] at h; exact absurd h (by simp)
      | some ev =>
        rw [hf] at h
        obtain rfl := Option.some.inj h
        have hbeq := List.find?_some hf
        exact eq_of_beq hbeq
    | cons p1 rest =>
      simp only [parseTripleParts] at h
      cases hint : pyInt? p1 with
      | none => rw [hint] at h; exact absurd h (by simp)
      | some sc =>
        rw [hint] at h
        cases hf : batch.find? (fun e => e.id == String.mk (stripL p0)) with
        | none => rw [hf] at h; exact absurd h (by simp)
        | some ev =>
          rw [hf] at h
          obtain rfl := Option.some.inj h
          have hbeq := List.find?_some hf
          exact eq_of_beq hbeq

theorem process_single_batch_keyed (batch : List Event)
    (call : Except String String) (p : String × ScoredEvent)
    (hp : p ∈ (process_single_batch batch call).1) :
    p.2.event.id = p.1 := by
  cases call with
  | error msg => exact absurd hp (by simp [process_single_batch])
  | ok resp =>
    simp only [process_single_batch] at hp
    unfold parseBatchResponse at hp
    by_cases hn : upperL resp.data = "NONE".data
    · rw [if_pos hn] at hp
      exact absurd hp (by simp)
    · rw [if_neg hn] at hp
      rcases List.mem_filterMap.mp hp with ⟨t, _, hparse⟩
      exact parseTripleParts_keyed batch _ p hparse

theorem process_single_batch_flag (batch : List Event)
    (call : Except String String) (msg : String) (flag : Bool)
    (h : (process_single_batch batch call).2 = some (msg, flag)) :
    call = .error msg ∧ flag = isRateLimitError msg := by
  cases call with
  | ok resp => exact absurd h (by simp [process_single_batch])
  | error m =>
    simp only [process_single_batch, Option.some.injEq, Prod.mk.injEq] at h
    obtain ⟨rfl, rfl⟩ := h
    exact ⟨rfl, rfl⟩

theorem mergeLoop_ok_good
    (rs : List (List (String × ScoredEvent) × Option (String × Bool))) :
    ∀ (acc : List ScoredEvent) (seen errs : List String)
      (acc' : List ScoredEvent) (seen' errs' : List String),
      mergeLoop rs (acc, seen, errs) = .ok (acc', seen', errs') →
      GoodState (acc, seen) →
      (∀ r ∈ rs, ∀ p ∈ r.1, (p.2 : ScoredEvent).event.id = p.1) →
      GoodState (acc', seen') := by
  induction rs with
  | nil =>
    intro acc seen errs acc' seen' errs' h hg _
    injection h with h'
    injection h' with h1 h23
    injection h23 with h2 h3
    subst h1; subst h2
    exact hg
  | cons r rest ih =>
    intro acc seen errs acc' seen' errs' h hg hkeys
    obtain ⟨ms, errOpt⟩ := r
    have hkms : ∀ p ∈ ms, (p.2 : ScoredEvent).event.id = p.1 :=
      fun p hp => hkeys (ms, errOpt) (List.mem_cons_self _ _) p hp
    have hkrest : ∀ r ∈ rest, ∀ p ∈ r.1, (p.2 : ScoredEvent).event.id = p.1 :=
      fun r hr => hkeys r (List.mem_cons_of_mem _ hr)
    have hgood := addMatches_good (acc, seen) ms hg hkms
    cases errOpt with
    | none =>
      have hstep : mergeLoop ((ms, none) :: rest) (acc, seen, errs) =
          mergeLoop rest ((addMatches (acc, seen) ms).1,
            (addMatches (acc, seen) ms).2, errs) := rfl
      rw [hstep] at h
      exact ih _ _ _ _ _ _ h hgood hkrest
    | some me =>
      obtain ⟨msg, flag⟩ := me
      cases flag with
      | true =>
        have : mergeLoop ((ms, some (msg, true)) :: rest) (acc, seen, errs) =
            .error msg := rfl
        rw [this] at h
        cases h
      | false =>
        have hstep : mergeLoop ((ms, some (msg, false)) :: rest) (acc, seen, errs) =
            mergeLoop rest ((addMatches (acc, seen) ms).1,
              (addMatches (acc, seen) ms).2, errs ++ [msg]) := rfl
        rw [hstep] at h
        exact ih _ _ _ _ _ _ h hgood hkrest

theorem mergeLoop_ok_mem
    (rs : List (List (String × ScoredEvent) × Option (String × Bool))) :
    ∀ (acc : List ScoredEvent) (seen errs : List String)
      (acc' : List ScoredEvent) (seen' errs' : List String),
      mergeLoop rs (acc, seen, errs) = .ok (acc', seen', errs') →
      ∀ se ∈ acc', se ∈ acc ∨ ∃ r ∈ rs, ∃ eid, (eid, se) ∈ r.1 := by
  induction rs with
  | nil =>
    intro acc seen errs acc' seen' errs' h se hse
    injection h with h'
    injection h' with h1 h23
    subst h1
    exact .inl hse
  | cons r rest ih =>
    intro acc seen errs acc' seen' errs' h se hse
    obtain ⟨ms, errOpt⟩ := r
    have step :
        ∀ errs₀ : List String,
          mergeLoop rest ((addMatches (acc, seen) ms).1,
            (addMatches (acc, seen) ms).2, errs₀) = .ok (acc', seen', errs') →
          se ∈ acc ∨ ∃ r ∈ (ms, errOpt) :: rest, ∃ eid, (eid, se) ∈ r.1 := by
      intro errs₀ h'
      rcases ih _ _ _ _ _ _ h' se hse with hacc | ⟨r', hr', eid, hp⟩
      · rcases addMatches_mem (acc, seen) ms se hacc with h2 | ⟨eid, hp⟩
        · exact .inl h2
        · exact .inr ⟨(ms, errOpt), List.mem_cons_self _ _, eid, hp⟩
      · exact .inr ⟨r', List.mem_cons_of_mem _ hr', eid, hp⟩
    cases errOpt with
    | none => exact step errs h
    | some me =>
      obtain ⟨msg, flag⟩ := me
      cases flag with
      | true =>
        have : mergeLoop ((ms, some (msg, true)) :: rest) (acc, seen, errs) =
            .error msg := rfl
        rw [this] at h
        cases h
      | false => exact step (errs ++ [msg]) h

theorem mergeInputs_rate (inputs : List (List Event × Except String String)) :
    ∀ st : List ScoredEvent × List String × List String,
      (∃ p ∈ inputs, ∃ msg, p.2 = Except.error msg ∧ isRateLimitError msg = true) →
      ∃ m, mergeLoop (inputs.map (fun p => process_single_batch p.1 p.2)) st =
          .error m ∧ isRateLimitError m = true := by
  induction inputs with
  | nil =>
    intro st h
    rcases h with ⟨p, hp, _⟩
    exact absurd hp (List.not_mem_nil p)
  | cons q rest ih =>
    intro st h
    obtain ⟨acc, seen, errs⟩ := st
    cases hc : q.2 with
    | error msg =>
      by_cases hrl : isRateLimitError msg = true
      · refine ⟨msg, ?_, hrl⟩
        rw [List.map_cons]
        show mergeLoop (process_single_batch q.1 q.2 :: _) _ = .error msg
        rw [hc]
        show mergeLoop (([], some (msg, isRateLimitError msg)) :: _) _ = .error msg
        rw [hrl]
        rfl
      · have h' : ∃ p ∈ rest, ∃ msg, p.2 = Except.error msg ∧ isRateLimitError msg = true := by
          rcases h with ⟨p, hp, m', hm', hflag⟩
          rcases List.mem_cons.mp hp with hpq | h2
          · subst hpq
            rw [hc] at hm'
            injection hm' with he
            exact absurd (he ▸ hflag) hrl
          · exact ⟨p, h2, m', hm', hflag⟩
        have hflagval : isRateLimitError msg = false := by
          cases hval : isRateLimitError msg with
          | true => exact absurd hval hrl
          | false => rfl
        rcases ih ((addMatches (acc, seen) []).1, (addMatches (acc, seen) []).2,
            errs ++ [msg]) h' with ⟨m, hm, hmf⟩
        refine ⟨m, ?_, hmf⟩
        rw [List.map_cons]
        show mergeLoop (process_single_batch q.1 q.2 :: _) _ = .error m
        rw [hc]
        show mergeLoop (([], some (msg, isRateLimitError msg)) :: _) _ = .error m
        rw [hflagval]
        exact hm
    | ok resp =>
      have h' : ∃ p ∈ rest, ∃ msg, p.2 = Except.error msg ∧ isRateLimitError msg = true := by
        rcases h with ⟨p, hp, m', hm', hflag⟩
        rcases List.mem_cons.mp hp with hpq | h2
        · subst hpq
          rw [hc] at hm'
          cases hm'
        · exact ⟨p, h2, m', hm', hflag⟩
      rcases ih ((addMatches (acc, seen) (parseBatchResponse q.1 resp)).1,
          (addMatches (acc, seen) (parseBatchResponse q.1 resp)).2, errs) h' with ⟨m, hm, hmf⟩
      refine ⟨m, ?_, hmf⟩
      rw [List.map_cons]
      show mergeLoop (process_single_batch q.1 q.2 :: _) _ = .error m
      rw [hc]
      exact hm

theorem insertScoreDesc_perm (a : ScoredEvent) (l : List ScoredEvent) :
    List.Perm (insertScoreDesc a l) (a :: l) := by
  induction l with
  | nil => exact List.Perm.refl _
  | cons b t ih =>
    unfold insertScoreDesc
    by_cases h : scoreKeyLe b a = true
    · rw [if_pos h]
    · rw [if_neg h]
      exact (ih.cons b).trans (List.Perm.swap a b t)

theorem sortMatches_perm (l : List ScoredEvent) : List.Perm (sortMatches l) l := by
  induction l with
  | nil => exact List.Perm.refl _
  | cons a t ih =>
    show List.Perm (insertScoreDesc a (sortMatches t)) (a :: t)
    exact (insertScoreDesc_perm a (sortMatches t)).trans (ih.cons a)

theorem keyword_sql_fallback_band (terms : List String)
    (candidates : List Event) (limit : ℕ) (se : ScoredEvent)
    (h : se ∈ keyword_sql_fallback terms candidates limit) :
    72 ≤ se.relevance_score ∧ se.relevance_score ≤ 95 := by
  unfold keyword_sql_fallback at h
  by_cases hlt : (likeTermsOf terms).isEmpty = true
  · rw [if_pos hlt] at h
    exact absurd h (List.not_mem_nil se)
  · rw [if_neg hlt] at h
    rcases List.mem_map.mp h with ⟨e, _, rfl⟩
    have h72 : 72 ≤ fallbackScore (likeTermsOf terms) e := by
      unfold fallbackScore
      omega
    have h95 : fallbackScore (likeTermsOf terms) e ≤ 95 := by
      unfold fallbackScore
      omega
    constructor
    · show (72 : ℤ) ≤ ((fallbackScore (likeTermsOf terms) e : ℕ) : ℤ)
      exact_mod_cast h72
    · show ((fallbackScore (likeTermsOf terms) e : ℕ) : ℤ) ≤ 95
      exact_mod_cast h95

theorem bpeFinal_snd (userQuery : String) (errs : List String) (fbUsed : Bool)
    (sorted : List ScoredEvent) : (bpeFinal userQuery errs fbUsed sorted).2 = fbUsed := by
  unfold bpeFinal
  by_cases h1 : sorted.isEmpty = true
  · rw [if_pos h1]
    by_cases h2 : errs.isEmpty = true
    · rw [if_pos h2]
    · rw [if_neg h2]
  · rw [if_neg h1]

theorem bpeFinal_eq_answer (userQuery : String) (errs : List String)
    (fbUsed : Bool) (sorted ms : List ScoredEvent) (fb : Bool)
    (h : bpeFinal userQuery errs fbUsed sorted = (.answer ms, fb)) :
    ms = sorted ∧ fb = fbUsed := by
  unfold bpeFinal at h
  by_cases h1 : sorted.isEmpty = true
  · rw [if_pos h1] at h
    by_cases h2 : errs.isEmpty = true
    · rw [if_pos h2] at h
      injection h with ha _
      cases ha
    · rw [if_neg h2] at h
      injection h with ha _
      cases ha
  · rw [if_neg h1] at h
    injection h with ha hb
    injection ha with hm
    exact ⟨hm.symm, hb.symm⟩

theorem infix_of_middle {α : Type _} (a b m n : List α) (h : n <:+: m) :
    n <:+: a ++ m ++ b := by
  rcases h with ⟨s, t, hst⟩
  exact ⟨a ++ s, t ++ b, by rw [← hst]; simp [List.append_assoc]⟩

/-- C4: no record id ever appears twice in the final accepted match list of
`batch_process_events`: later batches and the keyword fallback are ignored
for ids already accepted. -/
theorem C4_no_duplicate_ids (userQuery : String)
    (inputs : List (List Event × Except String String)) (userLimit : Option ℕ)
    (terms : List String) (candidates : List Event) (ms : List ScoredEvent)
    (fb : Bool)
    (h : batch_process_events userQuery inputs userLimit terms candidates =
      (.answer ms, fb)) :
    (ms.map (fun se => se.event.id)).Nodup := by
  cases hm : mergeLoop (inputs.map (fun p => process_single_batch p.1 p.2)) ([], [], []) with
  | error msg =>
    have hbpe : batch_process_events userQuery inputs userLimit terms candidates =
        (.rateLimited msg, false) := by
      unfold batch_process_events
      rw [hm]
    rw [hbpe] at h
    injection h with ha _
    cases ha
  | ok st =>
    obtain ⟨acc, seen, errs⟩ := st
    have hbpe : batch_process_events userQuery inputs userLimit terms candidates =
        bpePost userQuery userLimit terms candidates acc seen errs := by
      unfold batch_process_events
      rw [hm]
    rw [hbpe] at h
    have hkeys : ∀ r ∈ inputs.map (fun p => process_single_batch p.1 p.2),
        ∀ p ∈ r.1, (p.2 : ScoredEvent).event.id = p.1 := by
      intro r hr p hp
      rcases List.mem_map.mp hr with ⟨q, _, rfl⟩
      exact process_single_batch_keyed q.1 q.2 p hp
    have hgood : GoodState (acc, seen) :=
      mergeLoop_ok_good _ [] [] [] acc seen errs hm ⟨by simp, by simp⟩ hkeys
    unfold bpePost at h
    by_cases hlen : acc.length < max 5 (pyOrNat userLimit 5)
    · rw [if_pos hlen] at h
      have hkfb : ∀ p ∈ fallbackPairs terms candidates (max 5 (pyOrNat userLimit 5)),
          (p.2 : ScoredEvent).event.id = p.1 := by
        intro p hp
        rcases List.mem_map.mp hp with ⟨se, _, rfl⟩
        rfl
      have hgood' := addMatches_good (acc, seen) _ hgood hkfb
      obtain ⟨hms, _⟩ := bpeFinal_eq_answer _ _ _ _ _ _ h
      subst hms
      exact (((sortMatches_perm _).map (fun se => se.event.id)).nodup_iff).mpr hgood'.1
    · rw [if_neg hlen] at h
      obtain ⟨hms, _⟩ := bpeFinal_eq_answer _ _ _ _ _ _ h
      subst hms
      exact (((sortMatches_perm acc).map (fun se => se.event.id)).nodup_iff).mpr hgood.1

/-- Witness for C4 at a concrete one-batch run. -/
theorem C4_no_duplicate_ids_witness :
    batch_process_events "q" [([sampleE123], Except.ok "123:90:good")] none [] [] =
      (.answer [⟨sampleE123, 90, "good"⟩], true) ∧
    (([(⟨sampleE123, 90, "good"⟩ : ScoredEvent)].map (fun se => se.event.id)).Nodup) :=
  ⟨by decide,
   C4_no_duplicate_ids "q" [([sampleE123], Except.ok "123:90:good")] none [] []
     [⟨sampleE123, 90, "good"⟩] true (by decide)⟩

/-- C3 counterexample: the batch path performs no floor filtering, so a
batch completion returning score 50 puts a batch-sourced match of
relevance 50 (outside [70, 100]) into the final result, while the keyword
fallback contributes nothing (its output here is empty). -/
theorem C3_floor_counterexample :
    batch_process_events "q" [([sampleE1], Except.ok "1:50:weak")] none [] [] =
      (.answer [⟨sampleE1, 50, "weak"⟩], true) ∧
    ¬ ((70 : ℤ) ≤ (50 : ℤ)) ∧
    keyword_sql_fallback [] [] (max (max 5 (pyOrNat none 5) * 2) 15) = [] := by
  decide

/-- C3 (amended): every scored match in a final `batch_process_events`
answer either originates from some batch's parsed completion output -
carrying exactly the parsed integer score, with no [70, 100] floor
enforced by the code - or originates from the deterministic keyword
fallback, whose synthetic scores lie within [72, 95]. -/
theorem C3_scores_provenance (userQuery : String)
    (inputs : List (List Event × Except String String)) (userLimit : Option ℕ)
    (terms : List String) (candidates : List Event) (ms : List ScoredEvent)
    (fb : Bool)
    (h : batch_process_events userQuery inputs userLimit terms candidates =
      (.answer ms, fb)) :
    ∀ se ∈ ms,
      (∃ p ∈ inputs, ∃ eid, (eid, se) ∈ (process_single_batch p.1 p.2).1) ∨
      (se ∈ keyword_sql_fallback terms candidates
          (max (max 5 (pyOrNat userLimit 5) * 2) 15) ∧
        72 ≤ se.relevance_score ∧ se.relevance_score ≤ 95) := by
  cases hm : mergeLoop (inputs.map (fun p => process_single_batch p.1 p.2)) ([], [], []) with
  | error msg =>
    have hbpe : batch_process_events userQuery inputs userLimit terms candidates =
        (.rateLimited msg, false) := by
      unfold batch_process_events
      rw [hm]
    rw [hbpe] at h
    injection h with ha _
    cases ha
  | ok st =>
    obtain ⟨acc, seen, errs⟩ := st
    have hbpe : batch_process_events userQuery inputs userLimit terms candidates =
        bpePost userQuery userLimit terms candidates acc seen errs := by
      unfold batch_process_events
      rw [hm]
    rw [hbpe] at h
    unfold bpePost at h
    intro se hse
    have haccOf : se ∈ acc →
        ∃ p ∈ inputs, ∃ eid, (eid, se) ∈ (process_single_batch p.1 p.2).1 := by
      intro hacc
      rcases mergeLoop_ok_mem _ [] [] [] acc seen errs hm se hacc with h0 | ⟨r, hr, eid, hp⟩
      · cases h0
      · rcases List.mem_map.mp hr with ⟨q, hq, rfl⟩
        exact ⟨q, hq, eid, hp⟩
    by_cases hlen : acc.length < max 5 (pyOrNat userLimit 5)
    · rw [if_pos hlen] at h
      obtain ⟨hms, _⟩ := bpeFinal_eq_answer _ _ _ _ _ _ h
      subst hms
      rcases addMatches_mem (acc, seen) _ se
          ((sortMatches_perm _).mem_iff.mp hse) with hacc | ⟨eid, hp⟩
      · exact .inl (haccOf hacc)
      · right
        rcases List.mem_map.mp hp with ⟨se', hse', heq⟩
        have hse2 : se' = se := congrArg Prod.snd heq
        subst hse2
        exact ⟨hse', keyword_sql_fallback_band _ _ _ _ hse'⟩
    · rw [if_neg hlen] at h
      obtain ⟨hms, _⟩ := bpeFinal_eq_answer _ _ _ _ _ _ h
      subst hms
      exact .inl (haccOf ((sortMatches_perm _).mem_iff.mp hse))

/-- Witness for C3 (amended) at a concrete one-batch run. -/
theorem C3_scores_provenance_witness :
    (∃ p ∈ [([sampleE123], Except.ok "123:90:good")], ∃ eid,
        (eid, (⟨sampleE123, 90, "good"⟩ : ScoredEvent)) ∈
          (process_single_batch p.1 p.2).1) ∨
    ((⟨sampleE123, 90, "good"⟩ : ScoredEvent) ∈
        keyword_sql_fallback [] [] (max (max 5 (pyOrNat none 5) * 2) 15) ∧
      72 ≤ (⟨sampleE123, 90, "good"⟩ : ScoredEvent).relevance_score ∧
      (⟨sampleE123, 90, "good"⟩ : ScoredEvent).relevance_score ≤ 95) :=
  C3_scores_provenance "q" [([sampleE123], Except.ok "123:90:good")] none [] []
    [⟨sampleE123, 90, "good"⟩] true (by decide) ⟨sampleE123, 90, "good"⟩ (by decide)

/-- C5: when some batch's completion call fails with a quota/rate-limit
signature, the whole pass returns the distinct rate-limit reply and the
keyword fallback is not attempted (the invocation flag is `false`). -/
theorem C5_rate_limit_aborts (userQuery : String)
    (inputs : List (List Event × Except String String)) (userLimit : Option ℕ)
    (terms : List String) (candidates : List Event)
    (h : ∃ p ∈ inputs, ∃ msg, p.2 = Except.error msg ∧ isRateLimitError msg = true) :
    ∃ m, batch_process_events userQuery inputs userLimit terms candidates =
        (.rateLimited m, false) ∧ isRateLimitError m = true := by
  rcases mergeInputs_rate inputs ([], [], []) h with ⟨m, hm, hmf⟩
  refine ⟨m, ?_, hmf⟩
  unfold batch_process_events
  rw [hm]

/-- Witness for C5 at a concrete rate-limited batch. -/
theorem C5_rate_limit_aborts_witness :
    (∃ p ∈ [([sampleE1],
        (Except.error "HTTP 429 quota exceeded" : Except String String))], ∃ msg,
        p.2 = Except.error msg ∧ isRateLimitError msg = true) ∧
    ∃ m, batch_process_events "q"
        [([sampleE1], Except.error "HTTP 429 quota exceeded")] none [] [] =
        (.rateLimited m, false) ∧ isRateLimitError m = true :=
  ⟨⟨([sampleE1], (Except.error "HTTP 429 quota exceeded" : Except String String)),
    List.mem_cons_self _ _, "HTTP 429 quota exceeded", rfl, by decide⟩,
   C5_rate_limit_aborts "q" [([sampleE1], Except.error "HTTP 429 quota exceeded")]
     none [] []
     ⟨([sampleE1], (Except.error "HTTP 429 quota exceeded" : Except String String)),
      List.mem_cons_self _ _, "HTTP 429 quota exceeded", rfl, by decide⟩⟩

/-- C7 counterexample: with no user limit and 5 accepted matches, the
claimed threshold `max(5, displayLimit)` with default `displayLimit = 20`
would trigger the fallback (5 < 20), but the code compares against
`max(5, user_limit or 5) = 5` and does not invoke it. -/
theorem C7_threshold_counterexample :
    batch_process_events "q"
        [([sampleE1, sampleE2, sampleE3, sampleE4, sampleE5],
          Except.ok "1:90:a|2:90:b|3:90:c|4:90:d|5:90:e")] none [] [] =
      (.answer [⟨sampleE1, 90, "a"⟩, ⟨sampleE2, 90, "b"⟩, ⟨sampleE3, 90, "c"⟩,
        ⟨sampleE4, 90, "d"⟩, ⟨sampleE5, 90, "e"⟩], false) ∧
    (5 : ℕ) < max 5 20 := by
  decide

/-- C7 (amended): the keyword fallback is invoked exactly when the number
of accepted matches after all batches is below `max(5, user_limit or 5)`
(so the default threshold with no user limit is 5, not 20); and every
fallback match carries a synthetic score within the band [72, 95]. -/
theorem C7_fallback_trigger :
    (∀ (userQuery : String) (inputs : List (List Event × Except String String))
        (userLimit : Option ℕ) (terms : List String) (candidates : List Event)
        (acc : List ScoredEvent) (seen errs : List String),
      mergeLoop (inputs.map (fun p => process_single_batch p.1 p.2)) ([], [], []) =
          .ok (acc, seen, errs) →
      ((batch_process_events userQuery inputs userLimit terms candidates).2 = true ↔
        acc.length < max 5 (pyOrNat userLimit 5))) ∧
    (∀ (terms : List String) (candidates : List Event) (limit : ℕ)
        (se : ScoredEvent), se ∈ keyword_sql_fallback terms candidates limit →
      72 ≤ se.relevance_score ∧ se.relevance_score ≤ 95) := by
  constructor
  · intro uq inputs ul terms cands acc seen errs hm
    have hbpe : batch_process_events uq inputs ul terms cands =
        bpePost uq ul terms cands acc seen errs := by
      unfold batch_process_events
      rw [hm]
    rw [hbpe]
    unfold bpePost
    by_cases hlen : acc.length < max 5 (pyOrNat ul 5)
    · rw [if_pos hlen, bpeFinal_snd]
      simp [hlen]
    · rw [if_neg hlen, bpeFinal_snd]
      simp [hlen]
  · exact keyword_sql_fallback_band

/-- Witness for C7 (amended): a run with no batches does invoke the
fallback (0 < 5), and a concrete fallback match scores within the band. -/
theorem C7_fallback_trigger_witness :
    mergeLoop (([] : List (List Event × Except String String)).map
        (fun p => process_single_batch p.1 p.2)) ([], [], []) = .ok ([], [], []) ∧
    ((batch_process_events "q" [] none [] []).2 = true ↔
      ([] : List ScoredEvent).length < max 5 (pyOrNat none 5)) ∧
    (⟨sampleE1, 76, "Direct keyword match on t1"⟩ : ScoredEvent) ∈
      keyword_sql_fallback ["t1"] [sampleE1] 15 ∧
    (72 ≤ (⟨sampleE1, 76, "Direct keyword match on t1"⟩ : ScoredEvent).relevance_score ∧
      (⟨sampleE1, 76, "Direct keyword match on t1"⟩ : ScoredEvent).relevance_score ≤ 95) := by
  refine ⟨rfl, C7_fallback_trigger.1 "q" [] none [] [] [] [] [] rfl,
    by decide, C7_fallback_trigger.2 ["t1"] [sampleE1] 15 _ (by decide)⟩

/-- C6 counterexample: a triple whose score sub-field is present but not an
integer is discarded whole (not kept with default 75); the same id with a
parsable score is accepted. -/
theorem C6_nonint_score_discard_counterexample :
    parseBatchResponse [sampleE123] "123:abc:close match" = [] ∧
    sampleE123.id = "123" ∧
    pyInt? "abc".data = none ∧
    parseBatchResponse [sampleE123] "123:75:close match" =
      [("123", ⟨sampleE123, 75, "close match"⟩)] := by
  decide

/-- C6 (amended): the default score 75 applies only to a triple with no
score sub-field at all (no colon); a triple whose score sub-field fails
integer parsing is discarded whole by the `except ValueError` handler. -/
theorem C6_score_parse_default :
    (∀ (batch : List Event) (p0 p1 : List Char) (rest : List (List Char)),
        pyInt? p1 = none → parseTripleParts batch (p0 :: p1 :: rest) = none) ∧
    (∀ (batch : List Event) (t : List Char) (ev : Event),
        breakAt ':' t = none →
        batch.find? (fun e => e.id == String.mk (stripL t)) = some ev →
        parseTriple batch t =
          some (String.mk (stripL t), ⟨ev, 75, "relevant match"⟩)) := by
  constructor
  · intro batch p0 p1 rest hint
    simp only [parseTripleParts]
    rw [hint]
  · intro batch t ev hbreak hfind
    unfold parseTriple
    have hsplit : splitMax ':' 2 t = [t] := by
      unfold splitMax
      rw [hbreak]
    rw [hsplit]
    simp only [parseTripleParts]
    rw [hfind]

/-- Witness for C6 (amended) at concrete triples. -/
theorem C6_score_parse_default_witness :
    pyInt? "abc".data = none ∧
    parseTripleParts [sampleE123] ["123".data, "abc".data, "reason".data] = none ∧
    breakAt ':' "123".data = none ∧
    List.find? (fun e => e.id == String.mk (stripL "123".data)) [sampleE123] =
      some sampleE123 ∧
    parseTriple [sampleE123] "123".data =
      some (String.mk (stripL "123".data), ⟨sampleE123, 75, "relevant match"⟩) :=
  ⟨by decide,
   C6_score_parse_default.1 [sampleE123] "123".data "abc".data ["reason".data] (by decide),
   by decide, by decide,
   C6_score_parse_default.2 [sampleE123] "123".data sampleE123 (by decide) (by decide)⟩

/-- C8 counterexample: for a query mentioning liquidity, the rewrite still
injects `ORDER BY volume DESC` - not an ordering on the detected metric
field `liquidity`. -/
theorem C8_metric_order_counterexample :
    detect_metric_field "which markets have the most liquidity" = "liquidity" ∧
    execute_sql_rewrite "SELECT * FROM events" "which markets have the most liquidity" =
      .ok "SELECT * FROM events WHERE is_active=1 ORDER BY volume DESC" ∧
    containsS "SELECT * FROM events WHERE is_active=1 ORDER BY volume DESC"
      "liquidity" = false := by
  exact ⟨rfl, rfl, rfl⟩

/-- C8 (amended): the rewrite rejects non-SELECT text with an error and
otherwise applies LIMIT-stripping, `is_active=1` injection (under the
stated conditions) and ordering injection; when no `ORDER BY` is present
the injected ordering is always `ORDER BY volume DESC`, independent of the
metric detected from the user query. -/
theorem C8_rewrite_contract :
    (∀ sql userQuery : String, startsWithSelect sql = false →
        execute_sql_rewrite sql userQuery = .error selectOnlyError) ∧
    (∀ sql userQuery : String, startsWithSelect sql = true →
        execute_sql_rewrite sql userQuery =
          .ok (String.mk (inject_order
            (inject_active (removeLimitClauses sql.data) userQuery)))) ∧
    (∀ (s : List Char) (userQuery : String),
        needsActiveFilter s userQuery = true →
        "is_active=1".data <:+: inject_active s userQuery) ∧
    (∀ s : List Char, containsL (upperL s) "ORDER BY".data = false →
        "ORDER BY volume DESC".data <:+: inject_order s) ∧
    (∀ s : List Char, containsL (upperL s) "ORDER BY".data = true →
        inject_order s = s) ∧
    removeLimitClauses "SELECT * FROM events ORDER BY volume DESC LIMIT 10".data =
      "SELECT * FROM events ORDER BY volume DESC ".data := by
  refine ⟨?_, ?_, ?_, ?_, ?_, by decide⟩
  · intro sql uq h
    unfold execute_sql_rewrite
    rw [h]
    rfl
  · intro sql uq h
    unfold execute_sql_rewrite
    rw [h]
    rfl
  · intro s uq hcond
    unfold inject_active
    rw [hcond]
    show "is_active=1".data <:+:
      match findSubIdx "WHERE".data (upperL s) with
      | some p => s.take (p + 5) ++ " is_active=1 AND".data ++ s.drop (p + 5)
      | none =>
        match findSubIdx "ORDER BY".data (upperL s) with
        | some p => s.take p ++ " WHERE is_active=1 ".data ++ s.drop p
        | none =>
          match findSubIdx "LIMIT".data (upperL s) with
          | some p => s.take p ++ " WHERE is_active=1 ".data ++ s.drop p
          | none => dropTrailingSemis s ++ " WHERE is_active=1".data
    cases findSubIdx "WHERE".data (upperL s) with
    | some p => exact infix_of_middle _ _ _ _ (by decide)
    | none =>
      cases findSubIdx "ORDER BY".data (upperL s) with
      | some p => exact infix_of_middle _ _ _ _ (by decide)
      | none =>
        cases findSubIdx "LIMIT".data (upperL s) with
        | some p => exact infix_of_middle _ _ _ _ (by decide)
        | none =>
          have h := infix_of_middle (dropTrailingSemis s) []
            (" WHERE is_active=1".data) ("is_active=1".data) (by decide)
          simpa using h
  · intro s hno
    unfold inject_order
    rw [hno]
    show "ORDER BY volume DESC".data <:+:
      match findSubIdx "LIMIT".data (upperL s) with
      | some p => s.take p ++ " ORDER BY volume DESC ".data ++ s.drop p
      | none => dropTrailingSemis s ++ " ORDER BY volume DESC".data
    cases findSubIdx "LIMIT".data (upperL s) with
    | some p => exact infix_of_middle _ _ _ _ (by decide)
    | none =>
      have h := infix_of_middle (dropTrailingSemis s) []
        (" ORDER BY volume DESC".data) ("ORDER BY volume DESC".data) (by decide)
      simpa using h
  · intro s hyes
    unfold inject_order
    rw [hyes]
    rfl

/-- Witness for C8 (amended) at concrete queries. -/
theorem C8_rewrite_contract_witness :
    execute_sql_rewrite "DROP TABLE events" "q" = .error selectOnlyError ∧
    execute_sql_rewrite "SELECT * FROM events" "top markets" =
      .ok (String.mk (inject_order
        (inject_active (removeLimitClauses "SELECT * FROM events".data) "top markets"))) ∧
    "is_active=1".data <:+: inject_active "SELECT * FROM events".data "top markets" ∧
    "ORDER BY volume DESC".data <:+: inject_order "SELECT 1".data ∧
    inject_order "SELECT 1 ORDER BY x".data = "SELECT 1 ORDER BY x".data :=
  ⟨C8_rewrite_contract.1 "DROP TABLE events" "q" (by decide),
   C8_rewrite_contract.2.1 "SELECT * FROM events" "top markets" (by decide),
   C8_rewrite_contract.2.2.1 "SELECT * FROM events".data "top markets" (by decide),
   C8_rewrite_contract.2.2.2.1 "SELECT 1".data (by decide),
   C8_rewrite_contract.2.2.2.2.1 "SELECT 1 ORDER BY x".data (by decide)⟩

/-- C9 counterexample: the simple-metric heuristic fires on the query, yet
an analyzer strategy of `comparison` is NOT overridden to the direct-SQL
strategy - the override is guarded by `strategy_normalized != 'comparison'`. -/
theorem C9_comparison_not_overridden_counterexample :
    is_simple_metric_query "top markets by volume" = true ∧
    override_strategy "comparison" "top markets by volume" = "comparison" ∧
    ("comparison" : String) ≠ "sql" := by
  decide

/-- C9 (amended): when the simple-metric heuristic fires, `process_query`
forces the direct-SQL strategy for every completion-returned strategy
except `comparison`, which is preserved unchanged. -/
theorem C9_override_except_comparison :
    (∀ strategy userQuery : String, is_simple_metric_query userQuery = true →
        lowerS strategy ≠ "comparison" → override_strategy strategy userQuery = "sql") ∧
    (∀ strategy userQuery : String, lowerS strategy = "comparison" →
        override_strategy strategy userQuery = strategy) := by
  constructor
  · intro s uq h1 h2
    unfold override_strategy
    have hbeq : (lowerS s == "comparison") = false := by
      simp [h2]
    rw [hbeq, h1]
    rfl
  · intro s uq h
    unfold override_strategy
    have hbeq : (lowerS s == "comparison") = true := by
      simp [h]
    rw [hbeq]
    rfl

/-- Witness for C9 (amended) at concrete strategies. -/
theorem C9_override_except_comparison_witness :
    is_simple_metric_query "top markets by volume" = true ∧
    lowerS "batch" ≠ "comparison" ∧
    override_strategy "batch" "top markets by volume" = "sql" ∧
    lowerS "Comparison" = "comparison" ∧
    override_strategy "Comparison" "top markets by volume" = "Comparison" :=
  ⟨by decide, by decide,
   C9_override_except_comparison.1 "batch" "top markets by volume" (by decide) (by decide),
   by decide,
   C9_override_except_comparison.2 "Comparison" "top markets by volume" (by decide)⟩

end NthOrderMarket
